import Mathlib

/-!
Verification of the reconciliation core of `src/main.py` (clockify-scrum).

The Python source is shallowly embedded: machine floats become `ℚ` (all the
arithmetic here is exact decimal/rational), timestamps become `Int`, fallible
code returns `Except Err`, and the mutable engine loop becomes a fold over an
explicit `EngineState`.
-/

attribute [local semireducible] Rat.add Rat.sub Rat.mul Rat.inv Rat.ofScientific

namespace ClockifyScrum

/-- Error kinds raised by the Python core:
`malformedDuration` is the AttributeError hit when the duration regex finds no
match, `invalidNumber` is the ValueError from calling int on an empty digit
string, `unresolvedProject` is the KeyError from the projects dict, and
`unknownRuleKind` is the raise in the else branch of `match`. -/
inductive Err where
  | malformedDuration
  | invalidNumber
  | unresolvedProject
  | unknownRuleKind
deriving DecidableEq, Repr

instance {ε α : Type} [DecidableEq ε] [DecidableEq α] : DecidableEq (Except ε α) := fun x y =>
  match x, y with
  | .ok a, .ok b =>
    if h : a = b then isTrue (congrArg Except.ok h)
    else isFalse fun hc => h (Except.ok.inj hc)
  | .error a, .error b =>
    if h : a = b then isTrue (congrArg Except.error h)
    else isFalse fun hc => h (Except.error.inj hc)
  | .ok _, .error _ => isFalse fun hc => Except.noConfusion hc
  | .error _, .ok _ => isFalse fun hc => Except.noConfusion hc

/-- A Clockify time entry: the fields of the `entry` dicts that the core
reads. `start` is the parsed timestamp in epoch seconds; `duration` is the
nullable ISO-style duration string from `entry.timeInterval.duration`. -/
structure TimeEntry where
  id : String
  start : Int
  duration : Option String
  projectId : String
  description : String
deriving DecidableEq, Repr

/-- The projects dict built in `read_clockify`: project id to project name. -/
abbrev ProjectLookup := List (String × String)

/-- A row of the tasks spreadsheet: the `Description` cell (which is also the
raw match-rule string and the output label) and the `Estimated Hours` cell. -/
structure PlannedTask where
  description : String
  estimatedHours : ℚ
deriving DecidableEq, Repr

/-- The sprint configuration scalars read from `config.yml`. -/
structure Config where
  startOfSprint : Int
  sprintDays : Int
  totalSprintTime : ℚ
deriving DecidableEq, Repr

/-! ### String helpers (Python `str` operations over ASCII data) -/

/-- Python `str.lower`. -/
def toLowerStr (s : String) : String := String.mk (s.data.map Char.toLower)

/-- Python `str.strip`. -/
def trimStr (s : String) : String :=
  String.mk (((s.data.dropWhile Char.isWhitespace).reverse.dropWhile Char.isWhitespace).reverse)

/-- Python `s.startswith(p)`. -/
def strStarts (s p : String) : Bool := p.data.isPrefixOf s.data

/-- Python slicing `s[n:]`. -/
def dropStr (s : String) (n : Nat) : String := String.mk (s.data.drop n)

/-- Python substring test `needle in hay`. -/
def listContains (needle : List Char) : List Char → Bool
  | [] => needle.isEmpty
  | c :: t => needle.isPrefixOf (c :: t) || listContains needle t

/-! ### The task matcher (`match` in src/main.py, lines 14-25) -/

/-- Embeds the function `match` of src/main.py (renamed: `match` is a Lean
keyword). Trims and lowercases the rule string, then dispatches on the
"project:" / "task:" rule kind; any other shape raises. -/
def matchFn (done_project done_task target_task : String) : Except Err Bool :=
  let tt := toLowerStr (trimStr target_task)
  if strStarts tt "project:" then
    let target_project := trimStr (dropStr tt 8)
    let dp := toLowerStr done_project
    .ok (dp == target_project)
  else if strStarts tt "task:" then
    let target_desc := trimStr (dropStr tt 5)
    let dt := toLowerStr done_task
    .ok (listContains target_desc.data dt.data)
  else
    .error .unknownRuleKind

/-! ### The duration parser (inside `process_entry`, lines 58-69)

The regex `PT(\d*H)?(\d*M)?(\d*S)?` is matched at the start of the string and
is not anchored at the end.  Each optional group greedily takes a digit run
followed by its marker letter; if the marker is absent the group does not
participate and consumes nothing (backtracking through a digit run can never
succeed because the markers are not digits). -/

/-- Maximal leading digit run of a character list (regex `\d*`). -/
def takeDigits : List Char → List Char × List Char
  | [] => ([], [])
  | c :: cs =>
    if c.isDigit then
      match takeDigits cs with
      | (ds, rest) => (c :: ds, rest)
    else ([], c :: cs)

/-- One optional regex group `(\d*X)?`: returns the captured digit run (the
group text minus its trailing marker) and the remaining input. -/
def matchGroup (marker : Char) (cs : List Char) : Option (List Char) × List Char :=
  match takeDigits cs with
  | (ds, c :: rest) => if c == marker then (some ds, rest) else (none, cs)
  | (_, []) => (none, cs)

/-- The result of `re.match(r"PT(\d*H)?(\d*M)?(\d*S)?", s)`: `none` when the
string does not begin with the literal "PT" (the Python code then dereferences
None and fails), otherwise the three captured digit runs. -/
def parseDurationGroups (s : String) :
    Option (Option (List Char) × Option (List Char) × Option (List Char)) :=
  if strStarts s "PT" then
    match matchGroup 'H' (s.data.drop 2) with
    | (g1, cs1) =>
      match matchGroup 'M' cs1 with
      | (g2, cs2) =>
        match matchGroup 'S' cs2 with
        | (g3, _) => some (g1, g2, g3)
  else none

/-- Value of a digit string, as Python `int` computes it on digits. -/
def digitsToNat (ds : List Char) : Nat := ds.foldl (fun acc c => acc * 10 + (c.toNat - 48)) 0

/-- Contribution of one regex group: an unmatched group contributes 0 (the
`if r.group(i)` guard); a matched group with no digits makes `int` raise
ValueError; otherwise the digit value. -/
def groupVal : Option (List Char) → Except Err ℚ
  | none => .ok 0
  | some [] => .error .invalidNumber
  | some (d :: ds) => .ok ((digitsToNat (d :: ds) : ℚ))

/-- Elapsed hours of a nullable duration string: lines 59-69 of
`process_entry`. A null duration (timer still running) is exactly 0. -/
def durationHours (dur : Option String) : Except Err ℚ :=
  match dur with
  | none => .ok 0
  | some s =>
    match parseDurationGroups s with
    | none => .error .malformedDuration
    | some (g1, g2, g3) =>
      match groupVal g1 with
      | .error err => .error err
      | .ok h =>
        match groupVal g2 with
        | .error err => .error err
        | .ok m =>
          match groupVal g3 with
          | .error err => .error err
          | .ok sec => .ok (h + m / 60 + sec / 3600)

/-! ### `process_entry` (lines 58-73) -/

/-- Embeds `process_entry`: null duration returns 0 immediately; otherwise the
elapsed hours are computed, and when a candidate task is given the project
name is looked up (KeyError when absent) before the rule is evaluated; the
elapsed value is returned when the rule matches, 0 otherwise. -/
def process_entry (done : TimeEntry) (projects : ProjectLookup)
    (task : Option PlannedTask) : Except Err ℚ :=
  match done.duration with
  | none => .ok 0
  | some dur =>
    match durationHours (some dur) with
    | .error err => .error err
    | .ok elapsed =>
      match task with
      | none => .ok elapsed
      | some t =>
        match projects.lookup done.projectId with
        | none => .error .unresolvedProject
        | some name =>
          match matchFn name done.description t.description with
          | .error err => .error err
          | .ok b => if b then .ok elapsed else .ok 0

/-! ### The engine loop (`process_entries`, lines 76-110) -/

/-- The mutable state of the entry loop: the per-task accumulator rows
(`results`, each row paired with its task), the `processed_ids` list, and the
`off_schedule_spent` accumulator. -/
structure EngineState where
  results : List (PlannedTask × ℚ)
  processedIds : List String
  offSchedule : ℚ
deriving DecidableEq, Repr

/-- The sprint window predicate of line 97: `start_of_sprint <= date <
end_of_sprint`. -/
def inSprintWindow (startOfSprint endOfSprint : Int) (entry : TimeEntry) : Prop :=
  startOfSprint ≤ entry.start ∧ entry.start < endOfSprint

instance (s e : Int) (entry : TimeEntry) : Decidable (inSprintWindow s e entry) :=
  inferInstanceAs (Decidable (s ≤ entry.start ∧ entry.start < e))

/-- The inner `for i, t in tasks.iterrows()` loop, lines 100-105: each visited
row receives the value `process_entry` returns for it (0 on a miss), and the
loop breaks with a match flag as soon as that value is positive. -/
def matchLoop (entry : TimeEntry) (projects : ProjectLookup) :
    List (PlannedTask × ℚ) → Except Err (List (PlannedTask × ℚ) × Bool)
  | [] => .ok ([], false)
  | (t, spent) :: rest =>
    match process_entry entry projects (some t) with
    | .error err => .error err
    | .ok e =>
      if e > 0 then .ok ((t, spent + e) :: rest, true)
      else
        match matchLoop entry projects rest with
        | .error err => .error err
        | .ok (rest', matched) => .ok ((t, spent + e) :: rest', matched)

/-- One iteration of the entry loop, lines 96-107: skip the entry unless it is
in the window and unseen; otherwise record its id, run the matching pass, and
add the elapsed hours to the off-schedule accumulator when no task matched. -/
def processOne (startOfSprint endOfSprint : Int) (projects : ProjectLookup)
    (st : EngineState) (entry : TimeEntry) : Except Err EngineState :=
  if inSprintWindow startOfSprint endOfSprint entry ∧ entry.id ∉ st.processedIds then
    match matchLoop entry projects st.results with
    | .error err => .error err
    | .ok (results', matched) =>
      if matched then
        .ok { results := results', processedIds := st.processedIds ++ [entry.id],
              offSchedule := st.offSchedule }
      else
        match process_entry entry projects none with
        | .error err => .error err
        | .ok off =>
          .ok { results := results', processedIds := st.processedIds ++ [entry.id],
                offSchedule := st.offSchedule + off }
  else
    .ok st

/-- Embeds `process_entries` (minus the excel read): the tasks parameter is
the sheet after the descending sort of line 85. Returns the results rows,
with the trailing off-scheduled row appended, and `total_scheduled_hours`. -/
def process_entries (config : Config) (entries : List TimeEntry)
    (projects : ProjectLookup) (tasks : List PlannedTask) :
    Except Err (List (ℚ × ℚ × String) × ℚ) :=
  match entries.foldlM
      (processOne config.startOfSprint (config.startOfSprint + config.sprintDays * 86400) projects)
      { results := tasks.map (fun t => (t, (0 : ℚ))), processedIds := [], offSchedule := 0 } with
  | .error err => .error err
  | .ok final =>
    .ok ((final.results.map (fun p => (p.2, p.1.estimatedHours, p.1.description)))
          ++ [(final.offSchedule,
               config.totalSprintTime - (tasks.map (fun t => t.estimatedHours)).sum,
               "Off-scheduled")],
        (tasks.map (fun t => t.estimatedHours)).sum)

/-! ### Helper notions used to state the claims -/

/-- A rule string has one of the two recognised shapes (after trimming and
lowercasing, it starts with "project:" or with "task:"). -/
def ruleOk (s : String) : Bool :=
  strStarts (toLowerStr (trimStr s)) "project:" || strStarts (toLowerStr (trimStr s)) "task:"

/-- Whether the rule of task `t` matches an entry with resolved project name
`pname` and description `desc` (false when the rule is malformed). -/
def taskHit (pname desc : String) (t : PlannedTask) : Bool :=
  match matchFn pname desc t.description with
  | .ok b => b
  | .error _ => false

/-- Add `v` hours to the accumulator of the first task whose rule matches,
leaving every other row untouched: the effect first-match-wins crediting has
on the results rows. -/
def creditFirst (pname desc : String) (v : ℚ) :
    List (PlannedTask × ℚ) → List (PlannedTask × ℚ)
  | [] => []
  | (t, spent) :: rest =>
    if taskHit pname desc t then (t, spent + v) :: rest
    else (t, spent) :: creditFirst pname desc v rest

/-- Digit runs that make up a well-formed duration component. -/
def goodComp : Option (List Char) → Prop
  | none => True
  | some ds => ds ≠ [] ∧ ∀ c ∈ ds, c.isDigit = true

/-- The text of one optional duration component: absent, or digits followed
by the marker letter. -/
def componentStr (marker : Char) : Option (List Char) → List Char
  | none => []
  | some ds => ds ++ [marker]

/-- A well-formed duration encoding: "PT", an optional hours component, an
optional minutes component, an optional seconds component, in that order. -/
def mkDurationStr (hs ms ss : Option (List Char)) : String :=
  String.mk ('P' :: 'T' :: (componentStr 'H' hs ++ (componentStr 'M' ms ++ componentStr 'S' ss)))

/-- Numeric value of an optional duration component. -/
def optVal : Option (List Char) → ℚ
  | none => 0
  | some ds => (digitsToNat ds : ℚ)

/-- Modelled from the spec: the expected duration grammar is "PT" followed by
an optional hours component, an optional minutes component and an optional
seconds component (each a digit run terminated by its marker letter), with
nothing after them; used only to state which strings are malformed. -/
def specComponentRest (marker : Char) (cs : List Char) : List Char :=
  match takeDigits cs with
  | (ds, c :: rest) => if c == marker && !ds.isEmpty then rest else cs
  | (_, []) => cs

/-- Modelled from the spec: decides whether a duration string matches the
expected grammar in full. -/
def specDurationOk (s : String) : Bool :=
  strStarts s "PT" &&
    (specComponentRest 'S' (specComponentRest 'M' (specComponentRest 'H' (s.data.drop 2)))).isEmpty

/-! ### The concrete end-to-end scenario of the spec (section 8) -/

/-- The single planned task of the scenario: rule `TaskRule("design")`, i.e.
a Description cell "task:design", estimated 5 hours. -/
def c2task : PlannedTask := { description := "task:design", estimatedHours := 5 }

def c2projects : ProjectLookup := [("p1", "Alpha")]

/-- In-window entry, 2 hours, description "Design review". -/
def c2e1 : TimeEntry :=
  { id := "e1", start := 1000, duration := some "PT2H", projectId := "p1",
    description := "Design review" }

/-- In-window entry, 1 hour, description "Standup". -/
def c2e2 : TimeEntry :=
  { id := "e2", start := 2000, duration := some "PT1H", projectId := "p1",
    description := "Standup" }

/-- Out-of-window entry (start = sprint end exactly), 10 hours. -/
def c2e3 : TimeEntry :=
  { id := "e3", start := 173800, duration := some "PT10H", projectId := "p1",
    description := "Design extra" }

def c2entries : List TimeEntry := [c2e1, c2e2, c2e3]

/-- Sprint window `[1000, 1000 + 2*86400)` with a parametric hour budget. -/
def c2cfg (b : ℚ) : Config :=
  { startOfSprint := 1000, sprintDays := 2, totalSprintTime := b }

/-! ## Supporting lemmas -/

theorem except_bind_ok {α β : Type} (a : α) (f : α → Except Err β) :
    (Except.ok a >>= f) = f a := rfl

theorem except_bind_error {α β : Type} (e : Err) (f : α → Except Err β) :
    ((Except.error e : Except Err α) >>= f) = Except.error e := rfl

theorem groupVal_good (g : Option (List Char)) (hg : goodComp g) :
    groupVal g = .ok (optVal g) := by
  cases g with
  | none => rfl
  | some ds =>
    cases ds with
    | nil => exact absurd rfl hg.1
    | cons d t => rfl

theorem groupVal_nonneg (g : Option (List Char)) (q : ℚ) (h : groupVal g = .ok q) :
    0 ≤ q := by
  cases g with
  | none =>
    have h0 : (0 : ℚ) = q := Except.ok.inj h
    rw [← h0]
  | some ds =>
    cases ds with
    | nil => exact absurd h (by simp [groupVal])
    | cons d t =>
      have h0 : ((digitsToNat (d :: t) : ℚ)) = q := Except.ok.inj h
      rw [← h0]
      exact_mod_cast Nat.zero_le _

theorem durationHours_nonneg (d : Option String) (v : ℚ)
    (h : durationHours d = .ok v) : 0 ≤ v := by
  cases d with
  | none =>
    have h0 : (0 : ℚ) = v := Except.ok.inj h
    rw [← h0]
  | some s =>
    simp only [durationHours] at h
    cases hp : parseDurationGroups s with
    | none =>
      simp only [hp] at h
      exact Except.noConfusion h
    | some g =>
      obtain ⟨g1, g2, g3⟩ := g
      simp only [hp] at h
      cases hv1 : groupVal g1 with
      | error e =>
        simp only [hv1] at h
        exact Except.noConfusion h
      | ok q1 =>
        simp only [hv1] at h
        cases hv2 : groupVal g2 with
        | error e =>
          simp only [hv2] at h
          exact Except.noConfusion h
        | ok q2 =>
          simp only [hv2] at h
          cases hv3 : groupVal g3 with
          | error e =>
            simp only [hv3] at h
            exact Except.noConfusion h
          | ok q3 =>
            simp only [hv3] at h
            have he : q1 + q2 / 60 + q3 / 3600 = v := Except.ok.inj h
            rw [← he]
            have n1 := groupVal_nonneg _ _ hv1
            have n2 := groupVal_nonneg _ _ hv2
            have n3 := groupVal_nonneg _ _ hv3
            positivity

theorem takeDigits_append (ds rest : List Char) (hd : ∀ c ∈ ds, c.isDigit = true)
    (hr : ∀ c, rest.head? = some c → c.isDigit = false) :
    takeDigits (ds ++ rest) = (ds, rest) := by
  induction ds with
  | nil =>
    cases rest with
    | nil => rfl
    | cons c t => simp [takeDigits, hr c rfl]
  | cons d t ih =>
    have hdd : d.isDigit = true := hd d (by simp)
    have ih2 := ih (fun c hc => hd c (by simp [hc]))
    simp [takeDigits, hdd, ih2]

theorem matchGroup_hit (m : Char) (ds rest : List Char)
    (hd : ∀ c ∈ ds, c.isDigit = true) (hm : m.isDigit = false) :
    matchGroup m (ds ++ m :: rest) = (some ds, rest) := by
  have ht := takeDigits_append ds (m :: rest) hd (by intro c hc; cases hc; exact hm)
  unfold matchGroup
  rw [ht]
  simp

theorem matchGroup_miss (m : Char) (cs ds rest : List Char)
    (ht : takeDigits cs = (ds, rest))
    (hne : ∀ c, rest.head? = some c → (c == m) = false) :
    matchGroup m cs = (none, cs) := by
  unfold matchGroup
  rw [ht]
  cases rest with
  | nil => rfl
  | cons c t => simp [hne c rfl]

theorem matchGroup_S_comp (ss : Option (List Char)) (h3 : goodComp ss) :
    matchGroup 'S' (componentStr 'S' ss) = (ss, []) := by
  cases ss with
  | none => rfl
  | some c =>
    obtain ⟨-, hdig⟩ := h3
    have he : componentStr 'S' (some c) = c ++ 'S' :: [] := by simp [componentStr]
    rw [he, matchGroup_hit 'S' c [] hdig (by decide)]

theorem matchGroup_M_comp (ms ss : Option (List Char))
    (h2 : goodComp ms) (h3 : goodComp ss) :
    matchGroup 'M' (componentStr 'M' ms ++ componentStr 'S' ss) =
      (ms, componentStr 'S' ss) := by
  cases ms with
  | some b =>
    obtain ⟨-, hdig⟩ := h2
    have he : componentStr 'M' (some b) ++ componentStr 'S' ss =
        b ++ 'M' :: componentStr 'S' ss := by simp [componentStr]
    rw [he, matchGroup_hit 'M' b _ hdig (by decide)]
  | none =>
    cases ss with
    | none => rfl
    | some c =>
      obtain ⟨-, hdig⟩ := h3
      have hhead : ∀ x, ('S' :: ([] : List Char)).head? = some x → x.isDigit = false := by
        intro x hx
        cases hx
        decide
      have htd : takeDigits (componentStr 'M' none ++ componentStr 'S' (some c)) =
          (c, ['S']) := by
        simpa [componentStr] using takeDigits_append c ('S' :: []) hdig hhead
      have hne : ∀ x, (['S'] : List Char).head? = some x → (x == 'M') = false := by
        intro x hx
        cases hx
        decide
      have hmiss := matchGroup_miss 'M' _ _ _ htd hne
      rw [hmiss]
      simp [componentStr]

theorem matchGroup_H_comp (hs ms ss : Option (List Char))
    (h1 : goodComp hs) (h2 : goodComp ms) (h3 : goodComp ss) :
    matchGroup 'H' (componentStr 'H' hs ++ (componentStr 'M' ms ++ componentStr 'S' ss)) =
      (hs, componentStr 'M' ms ++ componentStr 'S' ss) := by
  cases hs with
  | some a =>
    obtain ⟨-, hdig⟩ := h1
    have he : componentStr 'H' (some a) ++ (componentStr 'M' ms ++ componentStr 'S' ss) =
        a ++ 'H' :: (componentStr 'M' ms ++ componentStr 'S' ss) := by simp [componentStr]
    rw [he, matchGroup_hit 'H' a _ hdig (by decide)]
  | none =>
    cases ms with
    | some b =>
      obtain ⟨-, hdig⟩ := h2
      have hhead : ∀ x, ('M' :: componentStr 'S' ss).head? = some x → x.isDigit = false := by
        intro x hx
        cases hx
        decide
      have htd : takeDigits (componentStr 'H' none ++ (componentStr 'M' (some b) ++
          componentStr 'S' ss)) = (b, 'M' :: componentStr 'S' ss) := by
        simpa [componentStr] using
          takeDigits_append b ('M' :: componentStr 'S' ss) hdig hhead
      have hne : ∀ x, ('M' :: componentStr 'S' ss).head? = some x → (x == 'H') = false := by
        intro x hx
        cases hx
        decide
      have hmiss := matchGroup_miss 'H' _ _ _ htd hne
      rw [hmiss]
      simp [componentStr]
    | none =>
      cases ss with
      | none => rfl
      | some c =>
        obtain ⟨-, hdig⟩ := h3
        have hhead : ∀ x, ('S' :: ([] : List Char)).head? = some x → x.isDigit = false := by
          intro x hx
          cases hx
          decide
        have htd : takeDigits (componentStr 'H' none ++ (componentStr 'M' none ++
            componentStr 'S' (some c))) = (c, ['S']) := by
          simpa [componentStr] using takeDigits_append c ('S' :: []) hdig hhead
        have hne : ∀ x, (['S'] : List Char).head? = some x → (x == 'H') = false := by
          intro x hx
          cases hx
          decide
        have hmiss := matchGroup_miss 'H' _ _ _ htd hne
        rw [hmiss]
        simp [componentStr]

theorem parse_mkDurationStr (hs ms ss : Option (List Char))
    (h1 : goodComp hs) (h2 : goodComp ms) (h3 : goodComp ss) :
    parseDurationGroups (mkDurationStr hs ms ss) = some (hs, ms, ss) := by
  have hstart : strStarts (mkDurationStr hs ms ss) "PT" = true := by
    unfold mkDurationStr strStarts
    simp [List.isPrefixOf]
  have hdrop : (mkDurationStr hs ms ss).data.drop 2 =
      componentStr 'H' hs ++ (componentStr 'M' ms ++ componentStr 'S' ss) := rfl
  unfold parseDurationGroups
  rw [if_pos hstart, hdrop]
  simp only [matchGroup_H_comp hs ms ss h1 h2 h3, matchGroup_M_comp ms ss h2 h3,
    matchGroup_S_comp ss h3]

theorem durationHours_not_PT (s : String) (h : strStarts s "PT" = false) :
    durationHours (some s) = .error .malformedDuration := by
  have hp : parseDurationGroups s = none := by
    unfold parseDurationGroups
    rw [h]
    simp
  simp only [durationHours, hp]

theorem process_entry_off_plan (done : TimeEntry) (projects : ProjectLookup) :
    process_entry done projects none = durationHours done.duration := by
  unfold process_entry
  cases hd : done.duration with
  | none => rfl
  | some dur =>
    cases h : durationHours (some dur) with
    | error e => simp [h]
    | ok v => simp [h]

theorem process_entries_ok (config : Config) (entries : List TimeEntry)
    (projects : ProjectLookup) (tasks : List PlannedTask) (final : EngineState)
    (h : entries.foldlM
        (processOne config.startOfSprint
          (config.startOfSprint + config.sprintDays * 86400) projects)
        { results := tasks.map (fun t => (t, (0 : ℚ))), processedIds := [],
          offSchedule := 0 } = .ok final) :
    process_entries config entries projects tasks =
      .ok ((final.results.map (fun p => (p.2, p.1.estimatedHours, p.1.description)))
            ++ [(final.offSchedule,
                 config.totalSprintTime - (tasks.map (fun t => t.estimatedHours)).sum,
                 "Off-scheduled")],
          (tasks.map (fun t => t.estimatedHours)).sum) := by
  unfold process_entries
  rw [h]

/-! ## Claim C3: duration parsing -/

/-- Claim C3: the duration parser maps an encoding with optional hours,
minutes and seconds components to hours + minutes/60 + seconds/3600; in
particular "PT1H30M" parses to 1.5 and "PT45S" to 0.0125; a null (absent)
duration yields exactly zero, and "PT" (present, matching no component)
yields zero. The last conjunct ties the parser to the program: processing an
entry with no candidate task returns exactly the parsed duration. -/
theorem c3_duration_parse :
    (∀ hs ms ss, goodComp hs → goodComp ms → goodComp ss →
        durationHours (some (mkDurationStr hs ms ss)) =
          .ok (optVal hs + optVal ms / 60 + optVal ss / 3600)) ∧
    durationHours (some "PT1H30M") = .ok (1.5 : ℚ) ∧
    durationHours (some "PT45S") = .ok (0.0125 : ℚ) ∧
    durationHours none = .ok 0 ∧
    durationHours (some "PT") = .ok 0 ∧
    (∀ entry projects, process_entry entry projects none = durationHours entry.duration) := by
  refine ⟨?_, by decide, by decide, rfl, by decide, process_entry_off_plan⟩
  intro hs ms ss h1 h2 h3
  simp only [durationHours, parse_mkDurationStr hs ms ss h1 h2 h3,
    groupVal_good hs h1, groupVal_good ms h2, groupVal_good ss h3]

/-- Witness for C3: the general component law applied at the concrete
encoding "PT2H45S". -/
theorem c3_duration_parse_witness :
    durationHours (some (mkDurationStr (some ['2']) none (some ['4', '5']))) =
      .ok (optVal (some ['2']) + optVal none / 60 + optVal (some ['4', '5']) / 3600) :=
  c3_duration_parse.1 (some ['2']) none (some ['4', '5'])
    ⟨by simp, by decide⟩ trivial ⟨by simp, by decide⟩

/-! ## Claim C4: malformed durations -/

/-- Counterexample to C4 as stated: "PTx" violates the expected duration
grammar, yet processing an entry carrying it raises nothing and contributes
a silent zero. -/
theorem c4_counterexample :
    specDurationOk "PTx" = false ∧
    process_entry
      { id := "cx", start := 0, duration := some "PTx", projectId := "p",
        description := "d" } [] none = .ok 0 := by
  constructor
  · decide
  · decide

/-- Claim C4 (amended): a non-null duration string that does not begin with
"PT" makes processing the entry fail hard with the malformed-duration error,
for any candidate task; the error is propagated, never defaulted to a zero
contribution. Strings that begin with "PT" and violate the grammar after
that prefix are not all errors: "PTx" is parsed leniently to a silent zero
(the counterexample), while "PTH" — a bare marker with an empty digit run —
still raises (the ValueError from int on the empty capture), as the last two
conjuncts show. -/
theorem c4_amended :
    (∀ (entry : TimeEntry) (projects : ProjectLookup) (task : Option PlannedTask)
        (s : String), entry.duration = some s → strStarts s "PT" = false →
        process_entry entry projects task = .error .malformedDuration) ∧
    specDurationOk "PTH" = false ∧
    process_entry
      { id := "ch", start := 0, duration := some "PTH", projectId := "p",
        description := "d" } [] none = .error .invalidNumber := by
  refine ⟨?_, by decide, by decide⟩
  intro entry projects task s hd h
  simp only [process_entry, hd, durationHours_not_PT s h]

/-- Witness for the amended C4 at the concrete malformed duration "XYZ". -/
theorem c4_amended_witness :
    process_entry
      { id := "cw", start := 0, duration := some "XYZ", projectId := "p",
        description := "d" } [] none = .error .malformedDuration :=
  c4_amended.1 _ [] none "XYZ" rfl (by decide)

/-! ## Claim C5: unknown rule kinds -/

/-- Claim C5: a rule string whose trimmed, lowercased form starts with
neither "project:" nor "task:" makes the matcher fail with the unknown-rule
error against any entry; it never returns a boolean. -/
theorem c5_unknown_rule (done_project done_task target_task : String)
    (hp : strStarts (toLowerStr (trimStr target_task)) "project:" = false)
    (ht : strStarts (toLowerStr (trimStr target_task)) "task:" = false) :
    matchFn done_project done_task target_task = .error .unknownRuleKind := by
  simp [matchFn, hp, ht]

/-- Witness for C5 at the concrete rule string "misc:meeting". -/
theorem c5_unknown_rule_witness :
    matchFn "Alpha" "Standup" "misc:meeting" = .error .unknownRuleKind :=
  c5_unknown_rule "Alpha" "Standup" "misc:meeting" (by decide) (by decide)

/-! ## Claim C2: the end-to-end scenario -/

/-- Counterexample to C2 as stated: the concrete run returns the label
"task:design" (the raw Description cell) in the first triple, not "design",
so the expected list of the claim is not the result. -/
theorem c2_counterexample :
    process_entries (c2cfg 20) c2entries c2projects [c2task] =
      .ok ([((2 : ℚ), (5 : ℚ), "task:design"), ((1 : ℚ), (15 : ℚ), "Off-scheduled")], 5) ∧
    ([((2 : ℚ), (5 : ℚ), "task:design"), ((1 : ℚ), (15 : ℚ), "Off-scheduled")] :
        List (ℚ × ℚ × String)) ≠
      [((2 : ℚ), (5 : ℚ), "design"), ((1 : ℚ), (15 : ℚ), "Off-scheduled")] := by
  constructor
  · decide
  · decide

/-- Claim C2 (amended): for the scenario sprint window [1000, 1000+2*86400),
one task TaskRule("design") (Description "task:design") estimated 5 hours,
the in-window 2h "Design review" entry, the in-window 1h "Standup" entry and
the out-of-window 10h entry, the engine returns exactly
[(2, 5, "task:design"), (1, budget - 5, "Off-scheduled")] for every budget,
the out-of-window entry contributing to no bucket. (Only the first label
differs from the claim, which expected "design".) -/
theorem c2_amended (b : ℚ) :
    process_entries (c2cfg b) c2entries c2projects [c2task] =
      .ok ([((2 : ℚ), (5 : ℚ), "task:design"), ((1 : ℚ), b - 5, "Off-scheduled")], 5) := by
  have h : List.foldlM
      (processOne 1000 (1000 + 2 * 86400) c2projects)
      { results := [(c2task, (0 : ℚ))], processedIds := [], offSchedule := 0 }
      c2entries =
      .ok { results := [(c2task, 2)], processedIds := ["e1", "e2"], offSchedule := 1 } := by
    decide
  have h2 := process_entries_ok (c2cfg b) c2entries c2projects [c2task]
      { results := [(c2task, 2)], processedIds := ["e1", "e2"], offSchedule := 1 } h
  rw [h2]
  norm_num [c2task, c2cfg]

/-! ## Engine lemmas -/

theorem matchFn_not_error (dp dt tt : String) (h : ruleOk tt = true) (e : Err) :
    matchFn dp dt tt ≠ .error e := by
  simp only [matchFn]
  split
  · simp
  · split
    · simp
    · next hp ht =>
      unfold ruleOk at h
      rw [Bool.or_eq_true] at h
      rcases h with h | h
      · exact absurd h (by simpa using hp)
      · exact absurd h (by simpa using ht)

theorem process_entry_some_eq (entry : TimeEntry) (P : ProjectLookup) (t : PlannedTask)
    (v : ℚ) (pname : String)
    (hdur : durationHours entry.duration = .ok v)
    (hproj : P.lookup entry.projectId = some pname)
    (hrule : ruleOk t.description = true) :
    process_entry entry P (some t) =
      .ok (if taskHit pname entry.description t then v else 0) := by
  cases hd : entry.duration with
  | none =>
    rw [hd] at hdur
    have hv : (0 : ℚ) = v := Except.ok.inj hdur
    simp only [process_entry, hd]
    rw [← hv]
    cases taskHit pname entry.description t <;> simp
  | some dur =>
    rw [hd] at hdur
    cases hb : matchFn pname entry.description t.description with
    | error e => exact absurd hb (matchFn_not_error _ _ _ hrule e)
    | ok b =>
      have hhit : taskHit pname entry.description t = b := by
        unfold taskHit
        rw [hb]
      simp only [process_entry, hd, hdur, hproj, hb, hhit]
      cases b <;> simp

theorem creditFirst_zero (pname desc : String) (rs : List (PlannedTask × ℚ)) :
    creditFirst pname desc 0 rs = rs := by
  induction rs with
  | nil => rfl
  | cons hd tl ih =>
    obtain ⟨t, spent⟩ := hd
    unfold creditFirst
    cases taskHit pname desc t <;> simp [ih]

theorem matchLoop_zero (entry : TimeEntry) (P : ProjectLookup) (pname : String)
    (hdur : durationHours entry.duration = .ok 0)
    (hproj : P.lookup entry.projectId = some pname) :
    ∀ rs, (∀ p ∈ rs, ruleOk p.1.description = true) →
      matchLoop entry P rs = .ok (rs, false) := by
  intro rs
  induction rs with
  | nil => intro _; rfl
  | cons hd tl ih =>
    intro hr
    obtain ⟨t, spent⟩ := hd
    have hpe := process_entry_some_eq entry P t 0 pname hdur hproj (hr (t, spent) (by simp))
    have hz : (if taskHit pname entry.description t then (0 : ℚ) else 0) = 0 := by
      cases taskHit pname entry.description t <;> rfl
    rw [hz] at hpe
    have ih2 := ih (fun p hp => hr p (by simp [hp]))
    simp only [matchLoop, hpe, ih2]
    norm_num

theorem matchLoop_pos (entry : TimeEntry) (P : ProjectLookup) (pname : String) (v : ℚ)
    (hv : 0 < v)
    (hdur : durationHours entry.duration = .ok v)
    (hproj : P.lookup entry.projectId = some pname) :
    ∀ rs, (∀ p ∈ rs, ruleOk p.1.description = true) →
      matchLoop entry P rs =
        .ok (creditFirst pname entry.description v rs,
             rs.any (fun p => taskHit pname entry.description p.1)) := by
  intro rs
  induction rs with
  | nil => intro _; rfl
  | cons hd tl ih =>
    intro hr
    obtain ⟨t, spent⟩ := hd
    have hpe := process_entry_some_eq entry P t v pname hdur hproj (hr (t, spent) (by simp))
    have ih2 := ih (fun p hp => hr p (by simp [hp]))
    cases hhit : taskHit pname entry.description t with
    | true =>
      have hpe2 : process_entry entry P (some t) = .ok v := by
        rw [hpe, hhit]
        simp
      simp only [matchLoop, hpe2]
      rw [if_pos hv]
      simp [creditFirst, hhit]
    | false =>
      have hpe2 : process_entry entry P (some t) = .ok 0 := by
        rw [hpe, hhit]
        simp
      simp only [matchLoop, hpe2, ih2]
      have hng : ¬ ((0 : ℚ) > 0) := by norm_num
      rw [if_neg hng]
      simp [creditFirst, hhit]

theorem processOne_ids (s e : Int) (P : ProjectLookup) (st st' : EngineState)
    (entry : TimeEntry) (h : processOne s e P st entry = .ok st') :
    st.processedIds ⊆ st'.processedIds ∧
      (inSprintWindow s e entry → entry.id ∈ st'.processedIds) := by
  unfold processOne at h
  by_cases hc : inSprintWindow s e entry ∧ entry.id ∉ st.processedIds
  · rw [if_pos hc] at h
    cases hml : matchLoop entry P st.results with
    | error err =>
      simp only [hml] at h
      exact Except.noConfusion h
    | ok pr =>
      obtain ⟨rs', matched⟩ := pr
      simp only [hml] at h
      cases matched with
      | true =>
        simp only [if_pos rfl] at h
        have hst := Except.ok.inj h
        rw [← hst]
        constructor
        · simp
        · intro _
          simp
      | false =>
        simp only [if_neg Bool.false_ne_true] at h
        cases hoff : process_entry entry P none with
        | error err =>
          simp only [hoff] at h
          exact Except.noConfusion h
        | ok off =>
          simp only [hoff] at h
          have hst := Except.ok.inj h
          rw [← hst]
          constructor
          · simp
          · intro _
            simp
  · rw [if_neg hc] at h
    have hst : st = st' := Except.ok.inj h
    rw [← hst]
    constructor
    · exact List.Subset.refl _
    · intro hwin
      by_contra hnotin
      exact hc ⟨hwin, hnotin⟩

theorem processOne_skip (s e : Int) (P : ProjectLookup) (st : EngineState)
    (entry : TimeEntry)
    (h : ¬ inSprintWindow s e entry ∨ entry.id ∈ st.processedIds) :
    processOne s e P st entry = .ok st := by
  unfold processOne
  rw [if_neg]
  rintro ⟨hwin, hnin⟩
  rcases h with h | h
  · exact h hwin
  · exact hnin h

theorem foldlM_ids_mono (s e : Int) (P : ProjectLookup) :
    ∀ (l : List TimeEntry) (st st' : EngineState),
      List.foldlM (processOne s e P) st l = .ok st' →
      st.processedIds ⊆ st'.processedIds := by
  intro l
  induction l with
  | nil =>
    intro st st' h
    have hst : st = st' := Except.ok.inj h
    rw [← hst]
    exact List.Subset.refl _
  | cons a l ih =>
    intro st st' h
    rw [List.foldlM_cons] at h
    cases h1 : processOne s e P st a with
    | error err =>
      rw [h1, except_bind_error] at h
      exact Except.noConfusion h
    | ok st1 =>
      rw [h1, except_bind_ok] at h
      exact List.Subset.trans (processOne_ids s e P st st1 a h1).1 (ih st1 st' h)

theorem fold_seen (s e : Int) (P : ProjectLookup) (l : List TimeEntry)
    (entry : TimeEntry) (hm : entry ∈ l) (st st' : EngineState)
    (h : List.foldlM (processOne s e P) st l = .ok st') :
    processOne s e P st' entry = .ok st' := by
  obtain ⟨l1, l2, rfl⟩ := List.append_of_mem hm
  rw [List.foldlM_append] at h
  cases h1 : List.foldlM (processOne s e P) st l1 with
  | error err =>
    rw [h1, except_bind_error] at h
    exact Except.noConfusion h
  | ok st1 =>
    rw [h1, except_bind_ok, List.foldlM_cons] at h
    cases h2 : processOne s e P st1 entry with
    | error err =>
      rw [h2, except_bind_error] at h
      exact Except.noConfusion h
    | ok st2 =>
      rw [h2, except_bind_ok] at h
      apply processOne_skip
      by_cases hwin : inSprintWindow s e entry
      · right
        have hmem := (processOne_ids s e P st1 st2 entry h2).2 hwin
        exact foldlM_ids_mono s e P l2 st2 st' h hmem
      · left
        exact hwin

theorem foldlM_dup (s e : Int) (P : ProjectLookup) (l1 l2 : List TimeEntry)
    (entry : TimeEntry) (hm : entry ∈ l1) (init : EngineState) :
    List.foldlM (processOne s e P) init (l1 ++ entry :: l2) =
      List.foldlM (processOne s e P) init (l1 ++ l2) := by
  rw [List.foldlM_append, List.foldlM_append]
  cases h1 : List.foldlM (processOne s e P) init l1 with
  | error err =>
    rw [except_bind_error, except_bind_error]
  | ok st1 =>
    rw [except_bind_ok, except_bind_ok, List.foldlM_cons]
    rw [fold_seen s e P l1 entry hm init st1 h1, except_bind_ok]

theorem matchLoop_fst (entry : TimeEntry) (P : ProjectLookup) :
    ∀ (rs rs' : List (PlannedTask × ℚ)) (m : Bool),
      matchLoop entry P rs = .ok (rs', m) → rs'.map Prod.fst = rs.map Prod.fst := by
  intro rs
  induction rs with
  | nil =>
    intro rs' m h
    have h' := Except.ok.inj h
    obtain ⟨rfl, rfl⟩ := Prod.mk.inj h'
    rfl
  | cons hd tl ih =>
    intro rs' m h
    obtain ⟨t, spent⟩ := hd
    simp only [matchLoop] at h
    cases hpe : process_entry entry P (some t) with
    | error err =>
      simp only [hpe] at h
      exact Except.noConfusion h
    | ok ev =>
      simp only [hpe] at h
      by_cases hgt : ev > 0
      · rw [if_pos hgt] at h
        have h' := Except.ok.inj h
        obtain ⟨rfl, rfl⟩ := Prod.mk.inj h'
        simp
      · rw [if_neg hgt] at h
        cases hml : matchLoop entry P tl with
        | error err =>
          simp only [hml] at h
          exact Except.noConfusion h
        | ok pr =>
          obtain ⟨tl', m'⟩ := pr
          simp only [hml] at h
          have h' := Except.ok.inj h
          obtain ⟨rfl, rfl⟩ := Prod.mk.inj h'
          have hfst := ih tl' m' hml
          simp [hfst]

theorem processOne_fst (s e : Int) (P : ProjectLookup) (st st' : EngineState)
    (entry : TimeEntry) (h : processOne s e P st entry = .ok st') :
    st'.results.map Prod.fst = st.results.map Prod.fst := by
  unfold processOne at h
  by_cases hc : inSprintWindow s e entry ∧ entry.id ∉ st.processedIds
  · rw [if_pos hc] at h
    cases hml : matchLoop entry P st.results with
    | error err =>
      simp only [hml] at h
      exact Except.noConfusion h
    | ok pr =>
      obtain ⟨rs', matched⟩ := pr
      simp only [hml] at h
      have hfst := matchLoop_fst entry P st.results rs' matched hml
      cases matched with
      | true =>
        simp only [if_pos rfl] at h
        have hst := Except.ok.inj h
        rw [← hst]
        exact hfst
      | false =>
        simp only [if_neg Bool.false_ne_true] at h
        cases hoff : process_entry entry P none with
        | error err =>
          simp only [hoff] at h
          exact Except.noConfusion h
        | ok off =>
          simp only [hoff] at h
          have hst := Except.ok.inj h
          rw [← hst]
          exact hfst
  · rw [if_neg hc] at h
    have hst : st = st' := Except.ok.inj h
    rw [← hst]

theorem foldlM_fst (s e : Int) (P : ProjectLookup) :
    ∀ (l : List TimeEntry) (st st' : EngineState),
      List.foldlM (processOne s e P) st l = .ok st' →
      st'.results.map Prod.fst = st.results.map Prod.fst := by
  intro l
  induction l with
  | nil =>
    intro st st' h
    have hst : st = st' := Except.ok.inj h
    rw [← hst]
  | cons a l ih =>
    intro st st' h
    rw [List.foldlM_cons] at h
    cases h1 : processOne s e P st a with
    | error err =>
      rw [h1, except_bind_error] at h
      exact Except.noConfusion h
    | ok st1 =>
      rw [h1, except_bind_ok] at h
      rw [ih st1 st' h, processOne_fst s e P st st1 a h1]

theorem zipWith_fst_snd {α β γ : Type} (f : α → β → γ) :
    ∀ rs : List (α × β),
      List.zipWith f (rs.map Prod.fst) (rs.map Prod.snd) = rs.map (fun p => f p.1 p.2)
  | [] => rfl
  | p :: rs => by simp [zipWith_fst_snd f rs]

/-- Witness for the amended C2 at the concrete budget 20. -/
theorem c2_amended_witness :
    process_entries (c2cfg 20) c2entries c2projects [c2task] =
      .ok ([((2 : ℚ), (5 : ℚ), "task:design"), ((1 : ℚ), (20 : ℚ) - 5, "Off-scheduled")], 5) :=
  c2_amended 20

/-! ## Claim C1: first match wins -/

/-- Claim C1: for an in-window, not-yet-seen entry (duration parsed to v
hours, project resolvable, all rule strings well-formed), one engine step
credits v to the accumulator of the first task in the fixed pre-sorted task
order whose rule matches and leaves every other accumulator unchanged
(creditFirst); when no rule matches, the v hours go to the off-schedule
accumulator instead. At most one task receives credit per entry — in
particular when a TaskRule task and a ProjectRule task both match, only the
task ordered first is credited, never both. -/
theorem c1_first_match_wins (s e : Int) (P : ProjectLookup) (st : EngineState)
    (entry : TimeEntry) (v : ℚ) (pname : String)
    (hwin : inSprintWindow s e entry)
    (hseen : entry.id ∉ st.processedIds)
    (hdur : durationHours entry.duration = .ok v)
    (hproj : P.lookup entry.projectId = some pname)
    (hrules : ∀ p ∈ st.results, ruleOk p.1.description = true) :
    processOne s e P st entry =
      .ok { results := creditFirst pname entry.description v st.results,
            processedIds := st.processedIds ++ [entry.id],
            offSchedule := st.offSchedule +
              (if st.results.any (fun p => taskHit pname entry.description p.1)
               then 0 else v) } := by
  have hnn := durationHours_nonneg _ _ hdur
  have hoff : process_entry entry P none = .ok v := by
    rw [process_entry_off_plan]
    exact hdur
  rcases lt_or_eq_of_le hnn with hv | hv
  · have hml := matchLoop_pos entry P pname v hv hdur hproj st.results hrules
    simp only [processOne, if_pos (And.intro hwin hseen), hml]
    cases hany : st.results.any (fun p => taskHit pname entry.description p.1) with
    | true => simp [hany]
    | false => simp [hany, hoff]
  · rw [← hv] at hdur hoff ⊢
    have hml := matchLoop_zero entry P pname hdur hproj st.results hrules
    simp only [processOne, if_pos (And.intro hwin hseen), hml, hoff]
    simp [creditFirst_zero]

/-- Witness for C1: an entry that matches both the TaskRule task and the
ProjectRule task credits only the first one in the order, never both, and
the off-plan accumulator is untouched. -/
theorem c1_first_match_wins_witness :
    processOne 1000 (1000 + 2 * 86400) c2projects
      { results := [(c2task, 0),
                    ({ description := "project:alpha", estimatedHours := 3 }, 0)],
        processedIds := [], offSchedule := 0 } c2e1 =
      .ok { results := [(c2task, 2),
                        ({ description := "project:alpha", estimatedHours := 3 }, 0)],
            processedIds := ["e1"], offSchedule := 0 } := by
  rw [c1_first_match_wins 1000 (1000 + 2 * 86400) c2projects
      { results := [(c2task, 0),
                    ({ description := "project:alpha", estimatedHours := 3 }, 0)],
        processedIds := [], offSchedule := 0 } c2e1 2 "Alpha"
      (by decide) (by decide) (by decide) (by decide) (by decide)]
  decide

/-! ## Claim C6: deduplication -/

/-- Claim C6: an entry sequence containing the same entry twice reconciles
exactly as the sequence with only one occurrence: the duplicate occurrence is
skipped entirely, so the entry's elapsed time is contributed exactly once, to
exactly one bucket. -/
theorem c6_dedup (cfg : Config) (P : ProjectLookup) (tasks : List PlannedTask)
    (l1 l2 : List TimeEntry) (entry : TimeEntry) (hm : entry ∈ l1) :
    process_entries cfg (l1 ++ entry :: l2) P tasks =
      process_entries cfg (l1 ++ l2) P tasks := by
  unfold process_entries
  rw [foldlM_dup cfg.startOfSprint (cfg.startOfSprint + cfg.sprintDays * 86400) P
      l1 l2 entry hm]

/-- Witness for C6: duplicating the 2h "Design review" entry does not change
the reconciliation result. -/
theorem c6_dedup_witness :
    process_entries (c2cfg 20) ([c2e1, c2e2] ++ c2e1 :: [c2e3]) c2projects [c2task] =
      process_entries (c2cfg 20) ([c2e1, c2e2] ++ [c2e3]) c2projects [c2task] :=
  c6_dedup (c2cfg 20) c2projects [c2task] [c2e1, c2e2] [c2e3] c2e1 (by simp)

/-! ## Claim C7: the half-open sprint window -/

/-- Claim C7: the sprint window is the half-open interval
[sprint_start, sprint_start + days*86400): an entry starting exactly at the
sprint start is eligible, one starting exactly at the derived end is
excluded, an excluded entry leaves the whole engine state untouched (no task
accumulator and no off-plan accumulator receives anything), and an eligible
unseen entry really is consumed (its id is recorded). -/
theorem c7_window :
    (∀ (s days : Int) (entry : TimeEntry), entry.start = s → 0 < days →
        inSprintWindow s (s + days * 86400) entry) ∧
    (∀ (s days : Int) (entry : TimeEntry), entry.start = s + days * 86400 →
        ¬ inSprintWindow s (s + days * 86400) entry) ∧
    (∀ (s e : Int) (P : ProjectLookup) (st : EngineState) (entry : TimeEntry),
        ¬ inSprintWindow s e entry → processOne s e P st entry = .ok st) ∧
    (∀ (s e : Int) (P : ProjectLookup) (st st' : EngineState) (entry : TimeEntry),
        inSprintWindow s e entry → entry.id ∉ st.processedIds →
        processOne s e P st entry = .ok st' →
        st'.processedIds = st.processedIds ++ [entry.id]) := by
  refine ⟨?_, ?_, ?_, ?_⟩
  · intro s days entry hs hd
    unfold inSprintWindow
    rw [hs]
    omega
  · intro s days entry hs
    unfold inSprintWindow
    rw [hs]
    omega
  · intro s e P st entry hw
    exact processOne_skip s e P st entry (Or.inl hw)
  · intro s e P st st' entry hwin hseen h
    unfold processOne at h
    rw [if_pos (And.intro hwin hseen)] at h
    cases hml : matchLoop entry P st.results with
    | error err =>
      simp only [hml] at h
      exact Except.noConfusion h
    | ok pr =>
      obtain ⟨rs', matched⟩ := pr
      simp only [hml] at h
      cases matched with
      | true =>
        simp only [if_pos rfl] at h
        have hst := Except.ok.inj h
        rw [← hst]
      | false =>
        simp only [if_neg Bool.false_ne_true] at h
        cases hoff : process_entry entry P none with
        | error err =>
          simp only [hoff] at h
          exact Except.noConfusion h
        | ok off =>
          simp only [hoff] at h
          have hst := Except.ok.inj h
          rw [← hst]

/-- Witness for C7: the entry at the window start is eligible, the entry at
the window end is excluded and skipped without any state change, and the
eligible entry gets its id recorded. -/
theorem c7_window_witness :
    inSprintWindow 1000 (1000 + 2 * 86400) c2e1 ∧
    ¬ inSprintWindow 1000 (1000 + 2 * 86400) c2e3 ∧
    processOne 1000 (1000 + 2 * 86400) c2projects
      { results := [(c2task, 0)], processedIds := [], offSchedule := 0 } c2e3 =
      .ok { results := [(c2task, 0)], processedIds := [], offSchedule := 0 } ∧
    EngineState.processedIds
        { results := [(c2task, 2)], processedIds := ["e1"], offSchedule := 0 } =
      [] ++ ["e1"] :=
  ⟨c7_window.1 1000 2 c2e1 rfl (by decide),
   c7_window.2.1 1000 2 c2e3 rfl,
   c7_window.2.2.1 1000 (1000 + 2 * 86400) c2projects
     { results := [(c2task, 0)], processedIds := [], offSchedule := 0 } c2e3
     (c7_window.2.1 1000 2 c2e3 rfl),
   c7_window.2.2.2 1000 (1000 + 2 * 86400) c2projects
     { results := [(c2task, 0)], processedIds := [], offSchedule := 0 }
     { results := [(c2task, 2)], processedIds := ["e1"], offSchedule := 0 } c2e1
     (c7_window.1 1000 2 c2e1 rfl (by decide)) (by decide) (by decide)⟩

/-! ## Claim C8: unresolved projects are a hard error -/

/-- Claim C8: an in-window entry whose project id is absent from the lookup
makes the evaluation of a ProjectRule task fail with the unresolved-project
error, and one engine step on such an entry aborts with that error instead of
silently booking the time as off-plan. -/
theorem c8_unresolved_project (entry : TimeEntry) (P : ProjectLookup)
    (t : PlannedTask) (d : String) (v : ℚ) (s e : Int) (st : EngineState)
    (rest : List (PlannedTask × ℚ)) (spent : ℚ)
    (hd : entry.duration = some d)
    (hdur : durationHours entry.duration = .ok v)
    (hproj : P.lookup entry.projectId = none)
    (hrule : strStarts (toLowerStr (trimStr t.description)) "project:" = true) :
    process_entry entry P (some t) = .error .unresolvedProject ∧
    (inSprintWindow s e entry → entry.id ∉ st.processedIds →
      st.results = (t, spent) :: rest →
      processOne s e P st entry = .error .unresolvedProject) := by
  rw [hd] at hdur
  have hpe : process_entry entry P (some t) = .error .unresolvedProject := by
    simp only [process_entry, hd, hdur, hproj]
  refine ⟨hpe, fun hwin hseen hres => ?_⟩
  simp only [processOne, if_pos (And.intro hwin hseen), hres, matchLoop, hpe]

/-- Witness for C8 at a concrete in-window entry with an unknown project id
and a concrete ProjectRule task. -/
theorem c8_unresolved_project_witness :
    process_entry
      { id := "e9", start := 1000, duration := some "PT1H", projectId := "zz",
        description := "Mystery work" } c2projects
      (some { description := "project:alpha", estimatedHours := 3 }) =
      .error .unresolvedProject ∧
    processOne 1000 (1000 + 2 * 86400) c2projects
      { results := [({ description := "project:alpha", estimatedHours := 3 }, 0)],
        processedIds := [], offSchedule := 0 }
      { id := "e9", start := 1000, duration := some "PT1H", projectId := "zz",
        description := "Mystery work" } = .error .unresolvedProject := by
  have h := c8_unresolved_project
    { id := "e9", start := 1000, duration := some "PT1H", projectId := "zz",
      description := "Mystery work" } c2projects
    { description := "project:alpha", estimatedHours := 3 } "PT1H" 1
    1000 (1000 + 2 * 86400)
    { results := [({ description := "project:alpha", estimatedHours := 3 }, 0)],
      processedIds := [], offSchedule := 0 } [] 0
    rfl (by decide) (by decide) (by decide)
  exact ⟨h.1, h.2 (by decide) (by decide) rfl⟩

/-! ## Claim C9: output shape -/

/-- Claim C9: whenever the engine returns, the output is one
(spent, estimated, label) triple per planned task, in the engine's fixed
task order, followed by exactly one trailing
(off-plan spent, budget - sum of estimates, "Off-scheduled") triple, and the
returned total is the sum of estimates. Nothing constrains the budget, so an
over-budget plan yields a negative off-plan budget instead of a rejection. -/
theorem c9_shape (cfg : Config) (P : ProjectLookup) (tasks : List PlannedTask)
    (entries : List TimeEntry) (res : List (ℚ × ℚ × String)) (sched : ℚ)
    (h : process_entries cfg entries P tasks = .ok (res, sched)) :
    sched = (tasks.map (fun t => t.estimatedHours)).sum ∧
    ∃ spents offv, spents.length = tasks.length ∧
      res = (List.zipWith (fun t sp => (sp, t.estimatedHours, t.description)) tasks spents)
            ++ [(offv, cfg.totalSprintTime - sched, "Off-scheduled")] := by
  unfold process_entries at h
  cases hf : List.foldlM (processOne cfg.startOfSprint
      (cfg.startOfSprint + cfg.sprintDays * 86400) P)
      { results := tasks.map (fun t => (t, (0 : ℚ))), processedIds := [],
        offSchedule := 0 } entries with
  | error err =>
    simp only [hf] at h
    exact Except.noConfusion h
  | ok final =>
    simp only [hf] at h
    have h' := Except.ok.inj h
    obtain ⟨hres, hsched⟩ := Prod.mk.inj h'
    have hfst := foldlM_fst cfg.startOfSprint
      (cfg.startOfSprint + cfg.sprintDays * 86400) P entries _ final hf
    have hinit : ∀ l : List PlannedTask,
        List.map Prod.fst (List.map (fun t => (t, (0 : ℚ))) l) = l := by
      intro l
      induction l with
      | nil => rfl
      | cons a l ih => simp [ih]
    have htasks : final.results.map Prod.fst = tasks := by
      rw [hfst]
      exact hinit tasks
    constructor
    · exact hsched.symm
    · refine ⟨final.results.map Prod.snd, final.offSchedule, ?_, ?_⟩
      · rw [← htasks]
        simp
      · rw [← hres]
        have hz := zipWith_fst_snd
          (fun (t : PlannedTask) (sp : ℚ) => (sp, t.estimatedHours, t.description))
          final.results
        rw [hsched, ← htasks, hz]

/-- Witness for C9: an empty entry feed against a 5h task and a 1h budget
returns the per-task triple and an off-plan triple with negative budget. -/
theorem c9_shape_witness :
    (5 : ℚ) = ([c2task].map (fun t => t.estimatedHours)).sum ∧
    ∃ spents offv, spents.length = [c2task].length ∧
      ([((0 : ℚ), (5 : ℚ), "task:design"), ((0 : ℚ), (-4 : ℚ), "Off-scheduled")] :
          List (ℚ × ℚ × String)) =
        (List.zipWith (fun t sp => (sp, t.estimatedHours, t.description)) [c2task] spents)
          ++ [(offv, (c2cfg 1).totalSprintTime - 5, "Off-scheduled")] :=
  c9_shape (c2cfg 1) c2projects [c2task] []
    [((0 : ℚ), (5 : ℚ), "task:design"), ((0 : ℚ), (-4 : ℚ), "Off-scheduled")] 5
    (by decide)

/-! ## Claim C10: lookup happens before rule dispatch -/

/-- Claim C10: the project-name lookup is performed before the rule kind is
inspected, so an in-window entry whose project id is absent from the lookup
errors against a candidate task even when that task's rule is a TaskRule,
while the off-plan fallback path (no candidate task) performs no lookup and
returns the parsed hours without error. -/
theorem c10_lookup_before_rule (entry : TimeEntry) (P : ProjectLookup)
    (t : PlannedTask) (d : String) (v : ℚ)
    (hd : entry.duration = some d)
    (hdur : durationHours entry.duration = .ok v)
    (hproj : P.lookup entry.projectId = none)
    (htask : strStarts (toLowerStr (trimStr t.description)) "task:" = true) :
    process_entry entry P (some t) = .error .unresolvedProject ∧
    process_entry entry P none = .ok v := by
  constructor
  · rw [hd] at hdur
    simp only [process_entry, hd, hdur, hproj]
  · rw [process_entry_off_plan]
    exact hdur

/-- Witness for C10: against the TaskRule task the unknown-project entry
errors, on the off-plan path it contributes its 1 hour. -/
theorem c10_lookup_before_rule_witness :
    process_entry
      { id := "e9", start := 1000, duration := some "PT1H", projectId := "zz",
        description := "Design sync" } c2projects (some c2task) =
      .error .unresolvedProject ∧
    process_entry
      { id := "e9", start := 1000, duration := some "PT1H", projectId := "zz",
        description := "Design sync" } c2projects none = .ok 1 :=
  c10_lookup_before_rule
    { id := "e9", start := 1000, duration := some "PT1H", projectId := "zz",
      description := "Design sync" } c2projects c2task "PT1H" 1
    rfl (by decide) (by decide) (by decide)

end ClockifyScrum
